import Mathlib

/-!
Shallow embedding of the oxbow GXF attribute model
(`src/oxbow/src/gxf/model/attribute.rs`) and of the batch-size plumbing of
the FASTA scanner (`src/oxbow/src/sequence/format/fasta.rs`), together with
theorems settling the specification claims about them.

Modelling conventions:
- Rust methods taking `&mut self` become state-passing functions returning
  the updated state; fallible methods additionally return an
  `Except IoError` component.
- Arrow's `GenericStringBuilder` is modelled by its logical content, the
  list of appended entries (`Option String`, `none` for a null slot).
  Arrow's `ListBuilder` is modelled by the child values accumulated since
  the last list slot was closed (`pending`) together with the closed list
  slots (`Option (List String)`, `none` for a list-level null).  The
  offsets/validity byte layout is out of scope per the specification.
- `io::Error` is modelled by its kind and message; only the error kinds
  relevant to this module are enumerated.
- Rust `str::to_lowercase` is modelled by `rustToLowercase` below; the
  case-insensitive comparisons here only involve the ASCII literals
  "string" and "array", where ASCII and Unicode lowercasing agree.
- Rust `BTreeMap<String, String>` is modelled as an association list kept
  strictly sorted by key (UTF-8 byte-wise order on Rust strings agrees
  with the code-point lexicographic order used by Lean's `<` on `String`).
-/

namespace Oxbow

/-- Alias so that constructor names `String`/`Array` below cannot shadow
the Lean `String` type inside the same inductive declaration. -/
abbrev RStr := String

/-- Model of `AttributeType` from attribute.rs: the closed set of attribute column
types. -/
inductive AttributeType
  | String
  | Array
deriving DecidableEq, Repr

/-- Model of `AttributeDef` from attribute.rs: a named, typed attribute definition. -/
structure AttributeDef where
  name : String
  ty : AttributeType
deriving DecidableEq, Repr

/-- Model of `io::ErrorKind`, restricted to the kinds this module can surface. -/
inductive IoErrorKind
  | InvalidInput
  | InvalidData
  | NotFound
  | Other
deriving DecidableEq, Repr

/-- Model of `io::Error` as its kind plus its display message. -/
structure IoError where
  kind : IoErrorKind
  msg : String
deriving DecidableEq, Repr

/-- Model of Rust `str::to_lowercase` (external standard library),
character-wise lowercasing of the string.  The only comparisons made
against its output in this module involve the ASCII tags "string" and
"array", on which character-wise ASCII lowercasing agrees with Rust's
Unicode lowercasing. -/
def rustToLowercase (s : String) : String :=
  ⟨s.data.map Char.toLower⟩

/-- Model of `TryFrom<(String, String)> for AttributeDef` (attribute.rs lines
24-42): lowercase the type tag, accept exactly "string" and "array",
otherwise fail with an `InvalidInput` error carrying the original tag. -/
def AttributeDef.tryFrom : String × String → Except IoError AttributeDef :=
  fun d =>
    let (name, ty) := d
    match rustToLowercase ty with
    | "string" => .ok ⟨name, .String⟩
    | "array" => .ok ⟨name, .Array⟩
    | _ => .error ⟨.InvalidInput,
        "Invalid attribute type: '" ++ ty ++ "'. Must be 'String' or 'Array'."⟩

/-- Model of `AttributeValue` from attribute.rs: harmonized GTF/GFF attribute
values. -/
inductive AttributeValue
  | String (s : RStr)
  | Array (a : List RStr)
deriving DecidableEq, Repr

/-- The variant of an `AttributeValue`, as an `AttributeType`. -/
def AttributeValue.variant : AttributeValue → AttributeType
  | .String _ => .String
  | .Array _ => .Array

/-- The name of an `AttributeType` variant, as it appears in Rust
`derive(Debug)` output. -/
def AttributeType.variantName : AttributeType → RStr
  | .String => "String"
  | .Array => "Array"

/-- Rust `derive(Debug)` rendering of an `AttributeValue`.  String
escaping of the payload is abstracted by Lean's `String.quote`; the
variant names are rendered exactly. -/
def AttributeValue.debugFmt : AttributeValue → RStr
  | .String s => "String(" ++ s.quote ++ ")"
  | .Array a => "Array([" ++ String.intercalate ", " (a.map String.quote) ++ "])"

/-- Model of `AttributeBuilder` from attribute.rs, with the wrapped Arrow builders
replaced by their logical content (see the module docstring). -/
inductive AttributeBuilder
  | String (entries : List (Option RStr))
  | Array (pending : List RStr) (entries : List (Option (List RStr)))
deriving DecidableEq, Repr

/-- The variant of an `AttributeBuilder`, as an `AttributeType`. -/
def AttributeBuilder.variant : AttributeBuilder → AttributeType
  | .String _ => .String
  | .Array _ _ => .Array

/-- Rust `derive(Debug)` rendering of an `AttributeBuilder`.  The payload
is the Debug output of the wrapped Arrow builder, which is external-crate
code; it is abstracted as "..", while the variant name is rendered
exactly. -/
def AttributeBuilder.debugFmt : AttributeBuilder → RStr
  | .String _ => "String(..)"
  | .Array _ _ => "Array(..)"

/-- Number of closed entries (logical length) of the builder. -/
def AttributeBuilder.len : AttributeBuilder → Nat
  | .String entries => entries.length
  | .Array _ entries => entries.length

/-- Model of `AttributeBuilder::new` (attribute.rs lines 90-97). -/
def AttributeBuilder.new : AttributeType → AttributeBuilder
  | .String => .String []
  | .Array => .Array [] []

/-- Model of `AttributeBuilder::append_null` (attribute.rs lines 99-104): a scalar
builder appends a null entry; a list builder calls `append(false)`, which
closes the current child range into a list-level null slot. -/
def AttributeBuilder.append_null : AttributeBuilder → AttributeBuilder
  | .String entries => .String (entries ++ [none])
  | .Array _pending entries => .Array [] (entries ++ [none])

/-- Model of `AttributeBuilder::append_value` (attribute.rs lines 106-138): on a
variant match the value is appended (for arrays, each child string goes to
the child buffer and `append(true)` closes one present list slot); on a
mismatch an `InvalidInput` error is returned, built from the format string
of the source, and the builder is left unchanged. -/
def AttributeBuilder.append_value :
    AttributeBuilder → AttributeValue → AttributeBuilder × Except IoError Unit
  | .String entries, v =>
    match v with
    | .String s => (.String (entries ++ [some s]), .ok ())
    | .Array a => (.String entries, .error ⟨.InvalidInput,
        "Type mismatch: expected builder for " ++ (AttributeValue.Array a).debugFmt
          ++ ", got " ++ (AttributeBuilder.String entries).debugFmt⟩)
  | .Array pending entries, v =>
    match v with
    | .Array array =>
        (.Array [] (entries ++ [some (pending ++ array)]), .ok ())
    | .String s => (.Array pending entries, .error ⟨.InvalidInput,
        "Type mismatch: expected builder for " ++ (AttributeValue.String s).debugFmt
          ++ ", got " ++ (AttributeBuilder.Array pending entries).debugFmt⟩)

/-- A finished Arrow column, by logical content: the entry list, where
`none` is a null slot. -/
inductive FinishedColumn
  | String (entries : List (Option RStr))
  | Array (entries : List (Option (List RStr)))
deriving DecidableEq, Repr

/-- Length of a finished column. -/
def FinishedColumn.len : FinishedColumn → Nat
  | .String entries => entries.length
  | .Array entries => entries.length

/-- Null mask of a finished column: `true` at null positions. -/
def FinishedColumn.nulls : FinishedColumn → List Bool
  | .String entries => entries.map Option.isNone
  | .Array entries => entries.map Option.isNone

/-- Model of `AttributeBuilder::finish` (attribute.rs lines 140-145).  It takes the
builder by mutable reference: the Arrow builders' `finish` returns the
accumulated array and resets the builder to empty, so the model returns
the finished column together with the builder state after the call. -/
def AttributeBuilder.finish : AttributeBuilder → FinishedColumn × AttributeBuilder
  | .String entries => (.String entries, .String [])
  | .Array _pending entries => (.Array entries, .Array [] [])

/-- One logical operation performed on an `AttributeBuilder` by the
batch-building pass: either `append_null` or `append_value v`. -/
inductive AttrOp
  | appendNull
  | appendValue (v : AttributeValue)
deriving DecidableEq, Repr

/-- Whether the operation is an `append_null`. -/
def AttrOp.isNull : AttrOp → Bool
  | .appendNull => true
  | .appendValue _ => false

/-- Whether the operation is accepted by a builder of type `ty`:
`append_null` always is, `append_value v` exactly when the value variant
equals the builder variant. -/
def AttrOp.matchesType (ty : AttributeType) : AttrOp → Bool
  | .appendNull => true
  | .appendValue v => v.variant = ty

/-- Run a sequence of operations against a builder, in order.  A
mismatched `append_value` leaves the builder unchanged (its error return
is dropped here; claim C3 covers it). -/
def AttributeBuilder.runOps (b : AttributeBuilder) (ops : List AttrOp) : AttributeBuilder :=
  ops.foldl
    (fun b op =>
      match op with
      | .appendNull => b.append_null
      | .appendValue v => (b.append_value v).1)
    b

/-- A GTF attribute entry (`noodles::gtf::record::attributes::Entry`):
a key/value pair of strings. -/
structure GtfEntry where
  key : String
  value : String
deriving DecidableEq, Repr

/-- A GTF record, reduced to its attribute entries, the only part of the
record the attribute scanner reads. -/
structure GtfRecord where
  attributes : List GtfEntry
deriving DecidableEq, Repr

/-- A GFF attribute value (`noodles::gff::record::attributes::field::Value`):
either a single string or an array whose elements are optional (the
`unwrap` in attribute.rs line 77 panics on a missing element). -/
inductive GffValue
  | String (s : RStr)
  | Array (a : List (Option RStr))
deriving DecidableEq, Repr

/-- A GFF record, reduced to its parsed attribute key/value pairs.  The
source iterates `io::Result` items and unwraps them; parse failures are
the external reader's concern, so records here are already-parsed pairs. -/
structure GffRecord where
  attributes : List (String × GffValue)
deriving DecidableEq, Repr

/-- Model of `From<GtfEntry> for AttributeValue` (attribute.rs lines 67-71): every
GTF entry value becomes a scalar string. -/
def AttributeValue.fromGtfEntry (entry : GtfEntry) : AttributeValue :=
  .String entry.value

/-- Unwrap every element of a GFF array value, as the iterator of
`unwrap`s in attribute.rs line 77 does; `none` models the panic on a null
element. -/
def unwrapAll : List (Option RStr) → Option (List RStr)
  | [] => some []
  | none :: _ => none
  | some s :: rest => (unwrapAll rest).map (fun l => s :: l)

/-- Model of `From<&GffValue> for AttributeValue` (attribute.rs lines 73-80):
strings map to `String`, arrays map to `Array` of their unwrapped
elements; `none` models the panic of `unwrap` on a null element. -/
def AttributeValue.fromGffValue : GffValue → Option AttributeValue
  | .String s => some (.String s)
  | .Array a => (unwrapAll a).map AttributeValue.Array

/-- Model of `BTreeMap::entry(k).or_insert_with(d)` on a map modelled as an
association list strictly sorted by key: if `k` is absent it is inserted
at its sorted position with value `d ()`; if present the stored value is
kept. -/
def entryOrInsertWith (k : String) (d : Unit → String) :
    List (String × String) → List (String × String)
  | [] => [(k, d ())]
  | (k₁, v₁) :: rest =>
    if k < k₁ then (k, d ()) :: (k₁, v₁) :: rest
    else if k = k₁ then (k₁, v₁) :: rest
    else (k₁, v₁) :: entryOrInsertWith k d rest

/-- Model of `AttributeScanner` (attribute.rs lines 148-151): a `BTreeMap` from
attribute name to inferred type string, modelled as a sorted association
list. -/
structure AttributeScanner where
  attrs : List (String × String)
deriving DecidableEq, Repr

/-- Model of `AttributeScanner::new` (attribute.rs lines 160-164). -/
def AttributeScanner.new : AttributeScanner := ⟨[]⟩

/-- Model of `AttributeScanner::collect` (attribute.rs lines 166-173): clone the
(name, type) pairs in map iteration order.  The method takes `&self`, so
the model returns the scanner state after the call alongside the list. -/
def AttributeScanner.collect (s : AttributeScanner) :
    List (String × String) × AttributeScanner :=
  (s.attrs.map (fun kv => (kv.1, kv.2)), s)

/-- Model of `Push<noodles::gtf::Record> for AttributeScanner` (attribute.rs lines
180-189): every key is recorded with type "String" unless already
known. -/
def AttributeScanner.pushGtf (s : AttributeScanner) (record : GtfRecord) :
    AttributeScanner :=
  ⟨record.attributes.foldl
    (fun attrs entry => entryOrInsertWith entry.key (fun _ => "String") attrs)
    s.attrs⟩

/-- The type string the GFF push records for a value at first sight of
its key: the closure passed to `or_insert_with` in attribute.rs lines
197-200. -/
def GffValue.inferredTypeName : GffValue → RStr
  | .String _ => "String"
  | .Array _ => "Array"

/-- Model of `Push<noodles::gff::Record> for AttributeScanner` (attribute.rs lines
191-203): an unknown key is recorded as "String" or "Array" from the
shape of its value; a known key keeps its stored type. -/
def AttributeScanner.pushGff (s : AttributeScanner) (record : GffRecord) :
    AttributeScanner :=
  ⟨record.attributes.foldl
    (fun attrs kv => entryOrInsertWith kv.1 (fun _ => kv.2.inferredTypeName) attrs)
    s.attrs⟩

/-- Observation of the scanner state: the type currently stored for a
name, if any. -/
def AttributeScanner.typeOf (s : AttributeScanner) (k : String) : Option String :=
  s.attrs.lookup k

/-- A record of either dialect, for stating properties over mixed
streams. -/
inductive GxfRecord
  | gtf (r : GtfRecord)
  | gff (r : GffRecord)
deriving DecidableEq, Repr

/-- Push a record of either dialect. -/
def AttributeScanner.pushAny (s : AttributeScanner) : GxfRecord → AttributeScanner
  | .gtf r => s.pushGtf r
  | .gff r => s.pushGff r

/-- The scanner state after one producer loop over a record stream,
starting from `AttributeScanner::new`. -/
def AttributeScanner.runScan (rs : List GxfRecord) : AttributeScanner :=
  rs.foldl AttributeScanner.pushAny AttributeScanner.new

namespace Fasta

/-- The configuration `Scanner::scan` (fasta.rs lines 59-70) hands to the
sequential `BatchIterator` it constructs: the resolved batch size and the
optional record limit.  The iterator itself lives outside the excerpt. -/
structure BatchIteratorCfg where
  batch_size : Nat
  limit : Option Nat
deriving DecidableEq, Repr

/-- The configuration `Scanner::scan_query` (fasta.rs lines 75-88) hands
to the `QueryBatchIterator` it constructs: the resolved batch size. -/
structure QueryBatchIteratorCfg where
  batch_size : Nat
deriving DecidableEq, Repr

/-- Batch-size resolution of FASTA `Scanner::scan` (fasta.rs line 66):
`batch_size.unwrap_or(1)`.  The `fields` filter is forwarded unchanged to
the external `BatchBuilder::new_fasta`. -/
def Scanner.scan (_fields : Option (List String)) (batch_size : Option Nat)
    (limit : Option Nat) : BatchIteratorCfg :=
  let batch_size := batch_size.getD 1
  ⟨batch_size, limit⟩

/-- Batch-size resolution of FASTA `Scanner::scan_query` (fasta.rs line
83): `batch_size.unwrap_or(1024)`. -/
def Scanner.scan_query (_fields : Option (List String))
    (batch_size : Option Nat) : QueryBatchIteratorCfg :=
  let batch_size := batch_size.getD 1024
  ⟨batch_size⟩

end Fasta

/-! ## Theorems -/

/-- Unwrapping a list all of whose elements are present yields exactly
those elements. -/
lemma unwrapAll_map_some : ∀ l : List RStr, unwrapAll (l.map some) = some l
  | [] => rfl
  | s :: rest => by simp [unwrapAll, unwrapAll_map_some rest]

/-- Unwrapping succeeds whenever every element is present. -/
lemma unwrapAll_isSome :
    ∀ a : List (Option RStr), (∀ x ∈ a, x.isSome) → (unwrapAll a).isSome
  | [], _ => rfl
  | none :: _, h => by simpa using h none (List.mem_cons_self _ _)
  | some s :: rest, h => by
    have ih := unwrapAll_isSome rest (fun x hx => h x (List.mem_cons_of_mem _ hx))
    rcases Option.isSome_iff_exists.mp ih with ⟨l, hl⟩
    simp [unwrapAll, hl]

/-- C4: constructing an `AttributeDef` from a (name, type-string) pair
succeeds exactly when the lowercased type string is "string" or "array",
yielding `AttributeType.String` resp. `AttributeType.Array`; for any
other type string it fails with an `InvalidInput` error. -/
theorem c4_attribute_def_validation (name ty : String) :
    (rustToLowercase ty = "string" →
      AttributeDef.tryFrom (name, ty) = .ok ⟨name, .String⟩) ∧
    (rustToLowercase ty = "array" →
      AttributeDef.tryFrom (name, ty) = .ok ⟨name, .Array⟩) ∧
    (rustToLowercase ty ≠ "string" → rustToLowercase ty ≠ "array" →
      AttributeDef.tryFrom (name, ty) = .error ⟨.InvalidInput,
        "Invalid attribute type: '" ++ ty ++ "'. Must be 'String' or 'Array'."⟩) := by
  refine ⟨fun h => ?_, fun h => ?_, fun h₁ h₂ => ?_⟩
  · simp [AttributeDef.tryFrom, h]
  · simp [AttributeDef.tryFrom, h]
  · simp [AttributeDef.tryFrom, h₁, h₂]

/-- Witness for C4 at concrete inputs: "STRING" and "Array" are accepted
case-insensitively, "int" is rejected with an `InvalidInput` error. -/
theorem c4_attribute_def_validation_witness :
    AttributeDef.tryFrom ("gene_id", "STRING") = .ok ⟨"gene_id", .String⟩ ∧
    AttributeDef.tryFrom ("tag", "Array") = .ok ⟨"tag", .Array⟩ ∧
    AttributeDef.tryFrom ("x", "int") = .error ⟨.InvalidInput,
      "Invalid attribute type: '" ++ "int" ++ "'. Must be 'String' or 'Array'."⟩ :=
  ⟨(c4_attribute_def_validation "gene_id" "STRING").1 (by decide),
   (c4_attribute_def_validation "tag" "Array").2.1 (by decide),
   (c4_attribute_def_validation "x" "int").2.2 (by decide) (by decide)⟩

/-- C6: on an Array-typed builder, `append_null` appends a list-level
null slot while `append_value` with an empty array appends a present slot
with zero children; the two finished columns are distinguishable. -/
theorem c6_list_null_vs_empty (entries : List (Option (List RStr))) :
    ((AttributeBuilder.Array [] entries).append_null).finish.1
        = FinishedColumn.Array (entries ++ [none]) ∧
    (((AttributeBuilder.Array [] entries).append_value (.Array [])).1).finish.1
        = FinishedColumn.Array (entries ++ [some []]) ∧
    ((AttributeBuilder.Array [] entries).append_null).finish.1
        ≠ (((AttributeBuilder.Array [] entries).append_value (.Array [])).1).finish.1 := by
  refine ⟨rfl, rfl, fun h => ?_⟩
  simp [AttributeBuilder.append_null, AttributeBuilder.append_value,
    AttributeBuilder.finish] at h

/-- C7 counterexample: `finish` takes the builder by mutable reference
and resets it, so after `finish` the builder can be appended to again and
finished a second time, producing a fresh column — refuting one-shot
finalization. -/
theorem c7_counterexample :
    ((((AttributeBuilder.new .String).append_value
        (.String "a")).1.finish.2).append_value (.String "b")).2 = .ok () ∧
    ((((AttributeBuilder.new .String).append_value
        (.String "a")).1.finish.2).append_value (.String "b")).1.finish.1
      = FinishedColumn.String [some "b"] :=
  ⟨rfl, rfl⟩

/-- C7 (amended): `finish` returns the column of all entries appended so
far and leaves the builder reset to the empty builder of its variant, so
the builder remains usable afterwards. -/
theorem c7_finish_resets (b : AttributeBuilder) :
    b.finish.2 = AttributeBuilder.new b.variant ∧ b.finish.1.len = b.len := by
  cases b <;> exact ⟨rfl, rfl⟩

/-- C8: the FASTA scanner defaults the batch size to 1 for sequential
scans and to 1024 for indexed query scans when the caller passes none. -/
theorem c8_fasta_default_batch_sizes (fields : Option (List String))
    (limit : Option Nat) :
    (Fasta.Scanner.scan fields none limit).batch_size = 1 ∧
    (Fasta.Scanner.scan_query fields none).batch_size = 1024 :=
  ⟨rfl, rfl⟩

/-- C9: converting a GFF value maps a string to `AttributeValue.String`
and an array of all-present elements to `AttributeValue.Array` of those
elements; the per-element unwrap cannot fail when every element is
present. -/
theorem c9_gff_value_conversion :
    (∀ s : RStr, AttributeValue.fromGffValue (.String s) = some (.String s)) ∧
    (∀ l : List RStr,
      AttributeValue.fromGffValue (.Array (l.map some)) = some (.Array l)) ∧
    (∀ a : List (Option RStr), (∀ x ∈ a, x.isSome) →
      (AttributeValue.fromGffValue (.Array a)).isSome) := by
  refine ⟨fun s => rfl, fun l => ?_, fun a h => ?_⟩
  · simp [AttributeValue.fromGffValue, unwrapAll_map_some]
  · simpa [AttributeValue.fromGffValue] using unwrapAll_isSome a h

/-- Witness for C9 at concrete inputs. -/
theorem c9_gff_value_conversion_witness :
    AttributeValue.fromGffValue (.Array (["a", "b"].map some))
        = some (.Array ["a", "b"]) ∧
    (AttributeValue.fromGffValue (.Array [some "z"])).isSome :=
  ⟨c9_gff_value_conversion.2.1 ["a", "b"],
   c9_gff_value_conversion.2.2 [some "z"] (by decide)⟩

/-- Appending a null never changes the builder variant. -/
lemma append_null_variant (b : AttributeBuilder) :
    b.append_null.variant = b.variant := by
  cases b <;> rfl

/-- Appending a value never changes the builder variant, whether the
append succeeds or fails. -/
lemma append_value_variant (b : AttributeBuilder) (v : AttributeValue) :
    ((b.append_value v).1).variant = b.variant := by
  cases b <;> cases v <;> rfl

/-- Appending a null via `append_null` extends the finished null mask by one null slot. -/
lemma finish_nulls_append_null (b : AttributeBuilder) :
    b.append_null.finish.1.nulls = b.finish.1.nulls ++ [true] := by
  cases b <;>
    simp [AttributeBuilder.append_null, AttributeBuilder.finish,
      FinishedColumn.nulls]

/-- A matching `append_value` extends the finished null mask by one
present slot. -/
lemma finish_nulls_append_value (b : AttributeBuilder) (v : AttributeValue)
    (h : v.variant = b.variant) :
    ((b.append_value v).1).finish.1.nulls = b.finish.1.nulls ++ [false] := by
  cases b <;> cases v <;>
    simp_all [AttributeValue.variant, AttributeBuilder.variant,
      AttributeBuilder.append_value, AttributeBuilder.finish,
      FinishedColumn.nulls]

/-- The length of a finished column is the length of its null mask. -/
lemma finished_len_eq_nulls_length (c : FinishedColumn) :
    c.len = c.nulls.length := by
  cases c <;> simp [FinishedColumn.len, FinishedColumn.nulls]

/-- Running a sequence of operations whose values all match the builder
variant appends, slot by slot, the null mask of the operations to the
builder's current null mask. -/
lemma runOps_nulls :
    ∀ (ops : List AttrOp) (b : AttributeBuilder),
      (∀ op ∈ ops, op.matchesType b.variant = true) →
      (b.runOps ops).finish.1.nulls
        = b.finish.1.nulls ++ ops.map AttrOp.isNull
  | [], b, _ => by simp [AttributeBuilder.runOps]
  | op :: rest, b, h => by
    have hop := h op (List.mem_cons_self _ _)
    have hrest : ∀ o ∈ rest, o.matchesType b.variant = true :=
      fun o ho => h o (List.mem_cons_of_mem _ ho)
    cases op with
    | appendNull =>
      have hr : ∀ o ∈ rest, o.matchesType b.append_null.variant = true := by
        rw [append_null_variant]; exact hrest
      have ih := runOps_nulls rest b.append_null hr
      simp only [AttributeBuilder.runOps, List.foldl_cons] at ih ⊢
      rw [ih, finish_nulls_append_null]
      simp [AttrOp.isNull]
    | appendValue v =>
      have hv : v.variant = b.variant := by
        simpa [AttrOp.matchesType] using hop
      have hr : ∀ o ∈ rest, o.matchesType ((b.append_value v).1).variant = true := by
        rw [append_value_variant]; exact hrest
      have ih := runOps_nulls rest (b.append_value v).1 hr
      simp only [AttributeBuilder.runOps, List.foldl_cons] at ih ⊢
      rw [ih, finish_nulls_append_value b v hv]
      simp [AttrOp.isNull]

/-- C1: running N operations (nulls and matching-variant values) on a
fresh builder and finishing yields a column of length exactly N whose
null positions are exactly the positions of the `append_null`
operations. -/
theorem c1_roundtrip (ty : AttributeType) (ops : List AttrOp)
    (h : ∀ op ∈ ops, op.matchesType ty = true) :
    ((AttributeBuilder.new ty).runOps ops).finish.1.len = ops.length ∧
    ((AttributeBuilder.new ty).runOps ops).finish.1.nulls
      = ops.map AttrOp.isNull := by
  have hvar : (AttributeBuilder.new ty).variant = ty := by cases ty <;> rfl
  have hnulls := runOps_nulls ops (AttributeBuilder.new ty) (by rw [hvar]; exact h)
  have hempty : (AttributeBuilder.new ty).finish.1.nulls = [] := by
    cases ty <;> rfl
  rw [hempty, List.nil_append] at hnulls
  exact ⟨by rw [finished_len_eq_nulls_length, hnulls, List.length_map], hnulls⟩

/-- Witness for C1 on a concrete three-operation sequence: one value, one
null, one value. -/
theorem c1_roundtrip_witness :
    ((AttributeBuilder.new .String).runOps
        [.appendValue (.String "a"), .appendNull,
          .appendValue (.String "b")]).finish.1.len = 3 ∧
    ((AttributeBuilder.new .String).runOps
        [.appendValue (.String "a"), .appendNull,
          .appendValue (.String "b")]).finish.1.nulls
      = [false, true, false] :=
  c1_roundtrip .String
    [.appendValue (.String "a"), .appendNull, .appendValue (.String "b")]
    (by decide)

/-- C3: appending a value whose variant does not match the builder's
variant returns an `InvalidInput` error without panicking, leaves the
builder (hence its appended length) unchanged, and the error message
contains both the received value's kind and the builder's (expected)
kind. -/
theorem c3_type_mismatch (b : AttributeBuilder) (v : AttributeValue)
    (h : v.variant ≠ b.variant) :
    ∃ e : IoError,
      b.append_value v = (b, .error e) ∧
      e.kind = .InvalidInput ∧
      (b.append_value v).1.len = b.len ∧
      ∃ x y z : String,
        e.msg = x ++ v.variant.variantName ++ y
          ++ b.variant.variantName ++ z := by
  cases b with
  | String entries =>
    cases v with
    | String s => exact absurd rfl h
    | Array a =>
      refine ⟨_, rfl, rfl, rfl,
        "Type mismatch: expected builder for ",
        "([" ++ String.intercalate ", " (a.map String.quote) ++ "]), got ",
        "(..)", ?_⟩
      apply String.ext
      simp [AttributeValue.debugFmt, AttributeBuilder.debugFmt,
        AttributeValue.variant, AttributeBuilder.variant,
        AttributeType.variantName, String.data_append]
  | Array pending entries =>
    cases v with
    | Array a => exact absurd rfl h
    | String s =>
      refine ⟨_, rfl, rfl, rfl,
        "Type mismatch: expected builder for ",
        "(" ++ s.quote ++ "), got ",
        "(..)", ?_⟩
      apply String.ext
      simp [AttributeValue.debugFmt, AttributeBuilder.debugFmt,
        AttributeValue.variant, AttributeBuilder.variant,
        AttributeType.variantName, String.data_append]

/-- Witness for C3: an Array value into a fresh String builder. -/
theorem c3_type_mismatch_witness :
    ∃ e : IoError,
      (AttributeBuilder.new .String).append_value (.Array ["x"])
          = (AttributeBuilder.new .String, .error e) ∧
      e.kind = .InvalidInput ∧
      ((AttributeBuilder.new .String).append_value (.Array ["x"])).1.len
          = (AttributeBuilder.new .String).len ∧
      ∃ x y z : String,
        e.msg = x ++ (AttributeValue.Array ["x"]).variant.variantName ++ y
          ++ (AttributeBuilder.new .String).variant.variantName ++ z :=
  c3_type_mismatch (AttributeBuilder.new .String) (.Array ["x"]) (by decide)

/-- Unfolding of association-list lookup at a cons cell. -/
lemma lookup_cons (K k v : String) (rest : List (String × String)) :
    List.lookup K ((k, v) :: rest)
      = if K = k then some v else List.lookup K rest := by
  by_cases h : K = k
  · simp [List.lookup, h]
  · have hb : (K == k) = false := beq_eq_false_iff_ne.mpr h
    simp [List.lookup, h, hb]

/-- A successful lookup means the key occurs in the list. -/
lemma lookup_mem_keys (K t : String) :
    ∀ l : List (String × String),
      l.lookup K = some t → K ∈ l.map Prod.fst
  | [], h => by simp [List.lookup] at h
  | (k₁, v₁) :: rest, h => by
    by_cases hK : K = k₁
    · simp [hK]
    · rw [lookup_cons, if_neg hK] at h
      simpa using Or.inr (by simpa using lookup_mem_keys K t rest h)

/-- Members of the list after an `or_insert_with` are either old members
or the freshly inserted pair. -/
lemma mem_entryOrInsertWith (k : String) (d : Unit → String) :
    ∀ (l : List (String × String)) (x : String × String),
      x ∈ entryOrInsertWith k d l → x ∈ l ∨ x = (k, d ())
  | [], x, hx => by
    simp only [entryOrInsertWith] at hx
    exact Or.inr (by simpa using hx)
  | (k₁, v₁) :: rest, x, hx => by
    by_cases h₁ : k < k₁
    · simp only [entryOrInsertWith, if_pos h₁] at hx
      rcases List.mem_cons.mp hx with hx | hx
      · exact Or.inr hx
      · exact Or.inl hx
    · by_cases h₂ : k = k₁
      · simp only [entryOrInsertWith, if_neg h₁, if_pos h₂] at hx
        exact Or.inl hx
      · simp only [entryOrInsertWith, if_neg h₁, if_neg h₂] at hx
        rcases List.mem_cons.mp hx with hx | hx
        · exact Or.inl (by simp [hx])
        · rcases mem_entryOrInsertWith k d rest x hx with hx | hx
          · exact Or.inl (List.mem_cons_of_mem _ hx)
          · exact Or.inr hx

/-- Insertion via `or_insert_with` preserves strict sortedness by key — the invariant
of the `BTreeMap` model. -/
lemma pairwise_entryOrInsertWith (k : String) (d : Unit → String) :
    ∀ l : List (String × String),
      l.Pairwise (fun p q => p.1 < q.1) →
      (entryOrInsertWith k d l).Pairwise (fun p q => p.1 < q.1)
  | [], _ => List.pairwise_singleton _ _
  | (k₁, v₁) :: rest, hp => by
    rw [List.pairwise_cons] at hp
    obtain ⟨hhead, htail⟩ := hp
    by_cases h₁ : k < k₁
    · simp only [entryOrInsertWith, if_pos h₁]
      rw [List.pairwise_cons]
      refine ⟨fun x hx => ?_, List.pairwise_cons.mpr ⟨hhead, htail⟩⟩
      rcases List.mem_cons.mp hx with hx | hx
      · rw [hx]; exact h₁
      · exact lt_trans h₁ (hhead x hx)
    · by_cases h₂ : k = k₁
      · simp only [entryOrInsertWith, if_neg h₁, if_pos h₂]
        exact List.pairwise_cons.mpr ⟨hhead, htail⟩
      · simp only [entryOrInsertWith, if_neg h₁, if_neg h₂]
        have hk₁k : k₁ < k := by
          rcases lt_trichotomy k k₁ with h | h | h
          · exact absurd h h₁
          · exact absurd h h₂
          · exact h
        rw [List.pairwise_cons]
        refine ⟨fun x hx => ?_, pairwise_entryOrInsertWith k d rest htail⟩
        rcases mem_entryOrInsertWith k d rest x hx with hx | hx
        · exact hhead x hx
        · rw [hx]; exact hk₁k

/-- On a sorted list, `or_insert_with` never changes the value stored for
an already-present key: first type wins. -/
lemma lookup_entryOrInsertWith (k K t : String) (d : Unit → String) :
    ∀ l : List (String × String),
      l.Pairwise (fun p q => p.1 < q.1) →
      l.lookup K = some t →
      (entryOrInsertWith k d l).lookup K = some t
  | [], _, hl => by simp [List.lookup] at hl
  | (k₁, v₁) :: rest, hp, hl => by
    rw [List.pairwise_cons] at hp
    obtain ⟨hhead, htail⟩ := hp
    by_cases h₁ : k < k₁
    · simp only [entryOrInsertWith, if_pos h₁]
      have hKk : K ≠ k := by
        intro hKk
        have hmem := lookup_mem_keys K t _ hl
        simp only [List.map_cons, List.mem_cons] at hmem
        rcases hmem with hmem | hmem
        · exact absurd h₁ (by rw [← hmem, hKk]; exact lt_irrefl _)
        · rcases List.mem_map.mp hmem with ⟨x, hx, hxK⟩
          have hlt := hhead x hx
          rw [hxK, hKk] at hlt
          exact absurd (lt_trans h₁ hlt) (lt_irrefl _)
      rw [lookup_cons, if_neg hKk]
      exact hl
    · by_cases h₂ : k = k₁
      · simp only [entryOrInsertWith, if_neg h₁, if_pos h₂]
        exact hl
      · simp only [entryOrInsertWith, if_neg h₁, if_neg h₂]
        by_cases hK : K = k₁
        · rw [lookup_cons, if_pos hK] at hl ⊢
          exact hl
        · rw [lookup_cons, if_neg hK] at hl ⊢
          exact lookup_entryOrInsertWith k K t d rest htail hl

/-- Inserting an absent key stores the freshly computed value. -/
lemma lookup_self_entryOrInsertWith (k : String) (d : Unit → String) :
    ∀ l : List (String × String),
      l.lookup k = none →
      (entryOrInsertWith k d l).lookup k = some (d ())
  | [], _ => by
    simp only [entryOrInsertWith]
    rw [lookup_cons, if_pos rfl]
  | (k₁, v₁) :: rest, hl => by
    rw [lookup_cons] at hl
    by_cases hK : k = k₁
    · rw [if_pos hK] at hl
      exact absurd hl (by simp)
    · rw [if_neg hK] at hl
      by_cases h₁ : k < k₁
      · simp only [entryOrInsertWith, if_pos h₁]
        rw [lookup_cons, if_pos rfl]
      · simp only [entryOrInsertWith, if_neg h₁, if_neg hK]
        rw [lookup_cons, if_neg hK]
        exact lookup_self_entryOrInsertWith k d rest hl

/-- A property preserved by every step of a fold is preserved by the
fold. -/
lemma foldl_preserves {α β : Type} (P : α → Prop) (f : α → β → α)
    (hf : ∀ a b, P a → P (f a b)) :
    ∀ (l : List β) (a : α), P a → P (l.foldl f a)
  | [], _, h => h
  | b :: l, a, h => foldl_preserves P f hf l (f a b) (hf a b h)

/-- The combined scanner invariant used below: the map is strictly sorted
by key, and key `K` (when tracked) stores value `t`. -/
def scannerInv (K t : String) (l : List (String × String)) : Prop :=
  l.Pairwise (fun p q => p.1 < q.1) ∧ l.lookup K = some t

/-- One `or_insert_with` step preserves the combined invariant. -/
lemma scannerInv_entryOrInsertWith (K t k : String) (d : Unit → String)
    (l : List (String × String)) (h : scannerInv K t l) :
    scannerInv K t (entryOrInsertWith k d l) :=
  ⟨pairwise_entryOrInsertWith k d l h.1,
   lookup_entryOrInsertWith k K t d l h.1 h.2⟩

/-- Pushing any record preserves sortedness of the scanner map. -/
lemma pushAny_pairwise (s : AttributeScanner) (r : GxfRecord)
    (h : s.attrs.Pairwise (fun p q => p.1 < q.1)) :
    (s.pushAny r).attrs.Pairwise (fun p q => p.1 < q.1) := by
  cases r with
  | gtf r =>
    exact foldl_preserves _ _
      (fun a e ha => pairwise_entryOrInsertWith _ _ a ha) r.attributes s.attrs h
  | gff r =>
    exact foldl_preserves _ _
      (fun a e ha => pairwise_entryOrInsertWith _ _ a ha) r.attributes s.attrs h

/-- Pushing any record preserves the combined invariant: a known key
keeps its stored type. -/
lemma pushAny_scannerInv (K t : String) (s : AttributeScanner) (r : GxfRecord)
    (h : scannerInv K t s.attrs) : scannerInv K t (s.pushAny r).attrs := by
  cases r with
  | gtf r =>
    exact foldl_preserves _ _
      (fun a e ha => scannerInv_entryOrInsertWith K t _ _ a ha) r.attributes s.attrs h
  | gff r =>
    exact foldl_preserves _ _
      (fun a e ha => scannerInv_entryOrInsertWith K t _ _ a ha) r.attributes s.attrs h

/-- Every scanner state reached from `new` by a stream of pushes is
strictly sorted by key. -/
lemma runScan_pairwise (rs : List GxfRecord) :
    (AttributeScanner.runScan rs).attrs.Pairwise (fun p q => p.1 < q.1) :=
  foldl_preserves (fun s => s.attrs.Pairwise (fun p q => p.1 < q.1))
    AttributeScanner.pushAny pushAny_pairwise rs AttributeScanner.new
    List.Pairwise.nil

/-- Collecting returns exactly the stored (name, type) pairs. -/
lemma collect_fst (s : AttributeScanner) : (s.collect).1 = s.attrs :=
  List.map_id _

/-- C2: the first observation of an attribute name fixes its recorded
type: a GFF record whose first entry carries an unknown key `K` records
the type inferred from that value's shape, and once `K` stores a type
`t`, any further pushed records leave it at `t`, which is what `collect`
then reports. -/
theorem c2_first_type_wins (K : String) :
    (∀ (pre : List GxfRecord) (v : GffValue) (others : List (String × GffValue)),
        (AttributeScanner.runScan pre).typeOf K = none →
        ((AttributeScanner.runScan pre).pushGff ⟨(K, v) :: others⟩).typeOf K
          = some v.inferredTypeName) ∧
    (∀ (pre rs : List GxfRecord) (t : String),
        (AttributeScanner.runScan pre).typeOf K = some t →
        (((AttributeScanner.runScan (pre ++ rs)).collect).1).lookup K = some t) := by
  constructor
  · intro pre v others hnone
    have hsorted := runScan_pairwise pre
    simp only [AttributeScanner.pushGff, AttributeScanner.typeOf,
      List.foldl_cons] at hnone ⊢
    have hinv : scannerInv K v.inferredTypeName
        (entryOrInsertWith K (fun _ => v.inferredTypeName)
          (AttributeScanner.runScan pre).attrs) :=
      ⟨pairwise_entryOrInsertWith _ _ _ hsorted,
       lookup_self_entryOrInsertWith _ _ _ hnone⟩
    exact (foldl_preserves (scannerInv K v.inferredTypeName)
      (fun attrs kv => entryOrInsertWith kv.1 (fun _ => kv.2.inferredTypeName) attrs)
      (fun a e ha => scannerInv_entryOrInsertWith K _ _ _ a ha)
      others _ hinv).2
  · intro pre rs t h
    have hsorted := runScan_pairwise pre
    have hrun : AttributeScanner.runScan (pre ++ rs)
        = rs.foldl AttributeScanner.pushAny (AttributeScanner.runScan pre) := by
      simp [AttributeScanner.runScan, List.foldl_append]
    have h' : (AttributeScanner.runScan pre).attrs.lookup K = some t := h
    rw [collect_fst, hrun]
    exact (foldl_preserves (fun s => scannerInv K t s.attrs)
      AttributeScanner.pushAny (fun s r hs => pushAny_scannerInv K t s r hs)
      rs (AttributeScanner.runScan pre) ⟨hsorted, h'⟩).2

/-- Witness for C2: key "ID" first seen with a scalar value, then pushed
again with an array value; the reported type stays "String". -/
theorem c2_first_type_wins_witness :
    ((AttributeScanner.runScan []).pushGff
        ⟨[("ID", .String "x")]⟩).typeOf "ID" = some (GffValue.String "x").inferredTypeName ∧
    (((AttributeScanner.runScan
        ([.gff ⟨[("ID", .String "x")]⟩] ++ [.gff ⟨[("ID", .Array [some "a"])]⟩])).collect).1).lookup
        "ID" = some "String" :=
  ⟨(c2_first_type_wins "ID").1 [] (.String "x") [] (by decide),
   (c2_first_type_wins "ID").2 [.gff ⟨[("ID", .String "x")]⟩]
     [.gff ⟨[("ID", .Array [some "a"])]⟩] "String" (by decide)⟩

/-- C5: for any input stream, `collect` returns the (name, type) pairs
strictly sorted in ascending order by name, so in particular with no
duplicate names. -/
theorem c5_collect_sorted_nodup (rs : List GxfRecord) :
    (((AttributeScanner.runScan rs).collect).1).Pairwise (fun p q => p.1 < q.1) ∧
    ((((AttributeScanner.runScan rs).collect).1).map Prod.fst).Nodup := by
  have hs := runScan_pairwise rs
  rw [collect_fst]
  refine ⟨hs, ?_⟩
  rw [List.Nodup, List.pairwise_map]
  exact hs.imp (fun h => ne_of_lt h)

/-- C10: `collect` takes the scanner by shared reference: it leaves the
scanner state unchanged, a second `collect` returns the same list, and
pushes after a `collect` behave exactly as pushes on the original
scanner. -/
theorem c10_collect_pure (s : AttributeScanner) :
    (s.collect).2 = s ∧
    ((s.collect).2.collect).1 = (s.collect).1 ∧
    (∀ r : GffRecord, ((s.collect).2).pushGff r = s.pushGff r) ∧
    (∀ r : GtfRecord, ((s.collect).2).pushGtf r = s.pushGtf r) :=
  ⟨rfl, rfl, fun _ => rfl, fun _ => rfl⟩

end Oxbow
